import Mathlib

/-!
# Verification of the RAG storage-and-retrieval core

Shallow embedding of the core modules of the `RAG18Nov2025-1` service:

* `modules/content_processing/text_chunker.py` — chunking with metadata,
* `modules/content_processing/embeddings_generator.py` — batched embedding,
* `modules/content_processing/chroma_uploader.py` — upload and persistence
  verification,
* `modules/dynamic_engine/metadata_filter.py` — filtered vector-store query,
* `modules/chatbot/retriever.py` — diversity-first context retrieval.

External effects are made explicit: the embedding provider is a function
parameter, a provider/store failure is an `Except`/`Bool` flag (the Python
`try/except` blocks become explicit propagation or local recovery), and the
vector store is the similarity-ranked list of records it would return for the
query embedding at hand (ChromaDB returns results ranked by ascending
distance; only that ranking, the metadata and the documents are used by the
code under verification).  Floating-point scores are modelled as rationals.
-/

namespace RagCore

/-- Chunk metadata as produced by `chunk_text_with_metadata` and stored with
every vector.  The `upload_date` stamp added by `upload_to_chroma` plays no
role in any verified property and is omitted from the model. -/
structure ChunkMeta where
  document_id : String
  document_name : String
  chunk_index : Nat
  chunk_total : Nat
deriving DecidableEq, Repr

/-- A chunk together with its metadata (`{"text": ..., "metadata": ...}` in
`text_chunker.py`). -/
structure ChunkData where
  text : String
  metadata : ChunkMeta
deriving DecidableEq, Repr

/-!
## ChunkingEngine — `text_chunker.py`

`chunk_text` delegates the actual splitting to langchain's
`RecursiveCharacterTextSplitter`, an external library; the splitter is
therefore a function parameter `splitText`.  The metadata stamping in
`chunk_text_with_metadata` is the code under verification.
-/

/-- `chunk_text(text)`: returns `[]` for empty or whitespace-only text,
otherwise applies the (external) splitter. -/
def chunk_text (splitText : String → List String) (text : String) : List String :=
  if text = "" ∨ text.trim = "" then [] else splitText text

/-- `chunk_text_with_metadata(text, document_id, document_name)`: enumerates
the chunks and stamps each with its index and the final chunk count. -/
def chunk_text_with_metadata (splitText : String → List String) (text : String)
    (documentId documentName : String) : List ChunkData :=
  let chunks := chunk_text splitText text
  chunks.enum.map fun p =>
    { text := p.2,
      metadata :=
        { document_id := documentId, document_name := documentName,
          chunk_index := p.1, chunk_total := chunks.length } }

/-!
## EmbeddingBatcher — `embeddings_generator.py`

The OpenAI client is a lazily-initialised global `_embeddings_model`; we
thread its initialisation state explicitly as a `Bool` (`true` once the
client has been constructed).  The provider call
`embeddings_model.embed_documents(batch)` is the parameter `embedDocuments`.
-/

/-- The batches `texts[i:i+50]` taken by the loop
`for i in range(0, len(texts), batch_size)` with `batch_size = 50`. -/
def batchList : List String → List (List String)
  | [] => []
  | x :: xs => ((x :: xs).take 50) :: batchList ((x :: xs).drop 50)
termination_by xs => xs.length
decreasing_by
  simp only [List.length_drop, List.length_cons]
  omega

/-- `generate_embeddings(texts)`: returns `[]` immediately on an empty input,
otherwise initialises the client (state component becomes `true`) and
concatenates the provider's answers for the 50-element batches in order.
Returns the embeddings together with the client-initialisation state. -/
def generate_embeddings (embedDocuments : List String → List (List ℚ))
    (modelInitialized : Bool) (texts : List String) :
    List (List ℚ) × Bool :=
  if texts = [] then ([], modelInitialized)
  else ((batchList texts).foldl (fun acc b => acc ++ embedDocuments b) [], true)

/-!
## VectorStore records and PersistenceVerifier — `chroma_uploader.py`

The ChromaDB collection is modelled as a list of stored records.  The
behaviour of `collection.add` — including a possibly-dropped write, the
failure mode `verify_vectors_persisted` exists to detect — is an abstract
function parameter `addFn : store → new records → store`.  An exception
raised inside a `try` block is an explicit `Bool` flag (`getFails`).
-/

/-- A record persisted in the vector store. -/
structure StoredRec where
  id : String
  text : String
  meta : ChunkMeta
  embedding : List ℚ
deriving DecidableEq, Repr

/-- Number of records stored under a given `document_id`
(`collection.get(where={"document_id": document_id})` returns exactly the
records whose metadata matches the filter; `stored_count = len(results['ids'])`). -/
def countDoc (store : List StoredRec) (documentId : String) : Nat :=
  (store.filter fun r => r.meta.document_id = documentId).length

/-- `verify_vectors_persisted(document_id, expected_chunk_count)`: re-queries
the store with an exact `document_id` filter and compares the record count to
the expected count; an exception inside the `try` block (`getFails`) is
caught and yields `false`. -/
def verify_vectors_persisted (getFails : Bool) (store : List StoredRec)
    (documentId : String) (expectedChunkCount : Nat) : Bool :=
  if getFails then false
  else countDoc store documentId = expectedChunkCount

/-- The four parallel arrays `ids`, `texts`, `metadatas`, `embeddings_list`
built by the loop `for i, (chunk_data, embedding) in
enumerate(zip(chunks_with_metadata, embeddings))` in `upload_to_chroma`. -/
def uploadArrays (chunks : List ChunkData) (embeddings : List (List ℚ))
    (documentId : String) :
    List String × List String × List ChunkMeta × List (List ℚ) :=
  let pairs := (chunks.zip embeddings).enum
  (pairs.map fun p => documentId ++ "_chunk_" ++ toString p.1,
   pairs.map fun p => p.2.1.text,
   pairs.map fun p => p.2.1.metadata,
   pairs.map fun p => p.2.2)

/-- The records `collection.add(ids=..., embeddings=..., metadatas=...,
documents=...)` stores: the element-wise combination of the four arrays. -/
def uploadRecords (chunks : List ChunkData) (embeddings : List (List ℚ))
    (documentId : String) : List StoredRec :=
  ((chunks.zip embeddings).enum).map fun p =>
    { id := documentId ++ "_chunk_" ++ toString p.1,
      text := p.2.1.text,
      meta := p.2.1.metadata,
      embedding := p.2.2 }

/-- `upload_to_chroma(chunks_with_metadata, embeddings, document_id)`: builds
the arrays, hands them to the store's `add` (abstract `addFn`), then returns
the result of `verify_vectors_persisted(document_id, len(ids))` — the source
returns `False` when verification fails and `True` otherwise. -/
def upload_to_chroma (addFn : List StoredRec → List StoredRec → List StoredRec)
    (getFails : Bool) (store : List StoredRec) (chunks : List ChunkData)
    (embeddings : List (List ℚ)) (documentId : String) : Bool :=
  let recs := uploadRecords chunks embeddings documentId
  let store2 := addFn store recs
  verify_vectors_persisted getFails store2 documentId recs.length

/-!
## Filtered query — `metadata_filter.py`

`query_with_filter` asks ChromaDB for the `top_k` nearest records among those
whose `document_id` passes the filter built by `create_document_filter`
(equality for one id, `$in`-membership for several, no filter when the list
is empty).  The store argument is the full record list already ranked by
ascending distance to the query embedding, as ChromaDB would rank it; the
query therefore filters and takes a prefix.  A raised exception
(`storeFails`) is caught and turned into the empty match list.
-/

/-- A retrieval match as assembled by `query_with_filter`: id, similarity
score `1 - distance`, metadata, and the chunk text injected into the
metadata (modelled as a separate field). -/
structure Match where
  id : String
  score : ℚ
  meta : ChunkMeta
  text : String
deriving DecidableEq, Repr

/-- `query_with_filter(query_embedding, document_ids, top_k)` over the ranked
store view. -/
def query_with_filter (storeFails : Bool) (store : List Match)
    (documentIds : List String) (topK : Nat) : List Match :=
  if storeFails then []
  else if documentIds = [] then store.take topK
  else (store.filter fun m => m.meta.document_id ∈ documentIds).take topK

/-!
## DiversityRetriever — `retriever.py`

`retrieve_context` groups the returned matches by document, then runs three selection
phases.  The Python loops (`for ... if len(selected_matches) >= top_k:
break`) become structural recursions whose first test is the break guard.
`docs_covered` is a Python `set`; only membership and its cardinality are
used, so it is modelled as a duplicate-free insertion list.
-/

/-- The group `matches_by_doc[d]`: all matches whose metadata `document_id`
equals `d`, in the order returned by the store (the dict preserves both the
insertion order of keys and the append order within a group, which is
exactly the filtered sublist). -/
def matchesByDoc (pool : List Match) (d : String) : List Match :=
  pool.filter fun m => m.meta.document_id = d

/-- `docs_covered.add(d)` on the insertion-list model of the set. -/
def insertDoc (cov : List String) (d : String) : List String :=
  if d ∈ cov then cov else cov ++ [d]

/-- Phase 1 (primary coverage): walk `document_ids` in caller order; stop
when the selection is full; otherwise append the group's best match and mark
the document covered. -/
def phase1 (mbd : String → List Match) (topK : Nat) :
    List String → List Match → List String → List Match × List String
  | [], sel, cov => (sel, cov)
  | d :: ds, sel, cov =>
    if topK ≤ sel.length then (sel, cov)
    else
      match mbd d with
      | [] => phase1 mbd topK ds sel cov
      | m :: _ => phase1 mbd topK ds (sel ++ [m]) (insertDoc cov d)

/-- Phase 2 (secondary coverage): walk `document_ids` again; for a document
not yet covered whose group holds at least two matches, append the
second-best match and mark it covered. -/
def phase2 (mbd : String → List Match) (topK : Nat) :
    List String → List Match → List String → List Match × List String
  | [], sel, cov => (sel, cov)
  | d :: ds, sel, cov =>
    if topK ≤ sel.length then (sel, cov)
    else if d ∈ cov then phase2 mbd topK ds sel cov
    else
      match mbd d with
      | _ :: m2 :: _ => phase2 mbd topK ds (sel ++ [m2]) (insertDoc cov d)
      | _ => phase2 mbd topK ds sel cov

/-- Phase 3 (fill): walk the full ranked match list and append any match not
already selected until the selection is full. -/
def phase3 (topK : Nat) : List Match → List Match → List Match
  | [], sel => sel
  | m :: ms, sel =>
    if topK ≤ sel.length then sel
    else if m ∈ sel then phase3 topK ms sel
    else phase3 topK ms (sel ++ [m])

/-- The three phases composed, with the source's outer guards
`if len(selected_matches) < top_k:` before Phases 2 and 3.  Returns
`selected_matches` and `docs_covered`. -/
def retrieveSelect (documentIds : List String) (topK : Nat)
    (pool : List Match) : List Match × List String :=
  let mbd := matchesByDoc pool
  let s1 := phase1 mbd topK documentIds [] []
  let s2 := if s1.1.length < topK then phase2 mbd topK documentIds s1.1 s1.2 else s1
  let sel3 := if s2.1.length < topK then phase3 topK pool s2.1 else s2.1
  (sel3, s2.2)

/-- The same selection with the Phase 2 loop removed (used to state that
Phase 2 is dead code). -/
def retrieveSelectNoPhase2 (documentIds : List String) (topK : Nat)
    (pool : List Match) : List Match × List String :=
  let mbd := matchesByDoc pool
  let s1 := phase1 mbd topK documentIds [] []
  let sel3 := if s1.1.length < topK then phase3 topK pool s1.1 else s1.1
  (sel3, s1.2)

/-- Context assembly: skip matches with empty text, render
`[Source: {document_name}]\n{text}` blocks, join with the fixed separator. -/
def buildContext (sel : List Match) : String :=
  String.intercalate "\n\n---\n\n"
    (sel.filterMap fun m =>
      if m.text = "" then none
      else some ("[Source: " ++ m.meta.document_name ++ "]\n" ++ m.text))

/-- The logged coverage metric
`(len(docs_covered) / num_documents * 100) if num_documents > 0 else 0`,
with the float division modelled over ℚ. -/
def coveragePercentage (numDocuments : Nat) (cov : List String) : ℚ :=
  if 0 < numDocuments then (cov.length : ℚ) / (numDocuments : ℚ) * 100 else 0

/-- The extended pool size of step 1:
`min(D*3, 150)` when `D > 10`, else `max(top_k*5, D*3)`. -/
def extendedTopK (numDocuments topK : Nat) : Nat :=
  if 10 < numDocuments then min (numDocuments * 3) 150
  else max (topK * 5) (numDocuments * 3)

/-- Selection, coverage set, coverage metric and context string of one
retrieval, computed from the match pool exactly as `retrieve_context` does
after its `query_with_filter` call. -/
structure RetrievalOutcome where
  selected : List Match
  covered : List String
  coveragePct : ℚ
  context : String
deriving Repr

/-- The outcome `retrieve_context` computes from a given match pool. -/
def retrieveOutcome (documentIds : List String) (topK : Nat)
    (pool : List Match) : RetrievalOutcome :=
  let s := retrieveSelect documentIds topK pool
  { selected := s.1, covered := s.2,
    coveragePct := coveragePercentage documentIds.length s.2,
    context := buildContext s.1 }

/-- The outcome of a full retrieval against the (ranked) store, with the
extended pool size of the source. -/
def retrieveOutcomeFromStore (store : List Match) (documentIds : List String)
    (topK : Nat) : RetrievalOutcome :=
  retrieveOutcome documentIds topK
    (query_with_filter false store documentIds
      (extendedTopK documentIds.length topK))

/-- `retrieve_context(query, document_ids, top_k)` with its effects explicit:
`embedResult` is the outcome of `generate_single_embedding(query)` — there is
no `try/except` around it in `retrieve_context`, so a provider error
propagates (`Except.error`); a store error is caught inside
`query_with_filter` and becomes the empty match list.  The embedding value
itself is not inspected further because the ranked store view already
reflects it. -/
def retrieve_context (embedResult : Except String (List ℚ))
    (storeFails : Bool) (store : List Match) (documentIds : List String)
    (topK : Nat) : Except String String :=
  if documentIds = [] then .ok ""
  else
    match embedResult with
    | .error e => .error e
    | .ok _ =>
      let pool := query_with_filter storeFails store documentIds
        (extendedTopK documentIds.length topK)
      if pool = [] then .ok ""
      else .ok (buildContext (retrieveSelect documentIds topK pool).1)

/-- `retrieve_context` with the Phase 2 loop removed, for the dead-code
equivalence claim. -/
def retrieve_context_noPhase2 (embedResult : Except String (List ℚ))
    (storeFails : Bool) (store : List Match) (documentIds : List String)
    (topK : Nat) : Except String String :=
  if documentIds = [] then .ok ""
  else
    match embedResult with
    | .error e => .error e
    | .ok _ =>
      let pool := query_with_filter storeFails store documentIds
        (extendedTopK documentIds.length topK)
      if pool = [] then .ok ""
      else .ok (buildContext (retrieveSelectNoPhase2 documentIds topK pool).1)

/-- Modelled from the spec: the coverage metric as the spec's sentence words
it — "(number of distinct documents represented in the output) / (number of
candidate documents that had at least one match)" — scaled to a percentage
like the code's metric.  Used only to compare against the code's
`coveragePercentage`. -/
def coverageSpec (documentIds : List String) (pool : List Match)
    (selected : List Match) : ℚ :=
  (((selected.map fun m => m.meta.document_id).dedup.length : ℚ) /
    ((documentIds.filter fun d => ¬ matchesByDoc pool d = []).length : ℚ)) * 100

/-!
## Helper lemmas about the selection phases
-/

theorem matchesByDoc_docId (pool : List Match) (d : String) :
    ∀ m ∈ matchesByDoc pool d, m.meta.document_id = d := by
  intro m hm
  have := List.of_mem_filter hm
  simpa using this

theorem mem_matchesByDoc_self (pool : List Match) (m : Match) (hm : m ∈ pool) :
    m ∈ matchesByDoc pool m.meta.document_id := by
  unfold matchesByDoc
  exact List.mem_filter.mpr ⟨hm, by simp⟩

theorem insertDoc_mem (cov : List String) (d x : String) :
    x ∈ insertDoc cov d ↔ x ∈ cov ∨ x = d := by
  unfold insertDoc
  by_cases h : d ∈ cov
  · simp only [if_pos h]
    constructor
    · exact fun hx => Or.inl hx
    · rintro (hx | rfl) <;> assumption
  · simp [if_neg h, or_comm]

theorem insertDoc_nodup (cov : List String) (d : String) (h : cov.Nodup) :
    (insertDoc cov d).Nodup := by
  unfold insertDoc
  by_cases hd : d ∈ cov
  · simpa [hd]
  · simp only [if_neg hd]
    simpa [List.nodup_append, h] using hd

theorem phase1_sel_prefix (mbd : String → List Match) (topK : Nat) :
    ∀ (ds : List String) (sel : List Match) (cov : List String),
      ∃ ext, (phase1 mbd topK ds sel cov).1 = sel ++ ext := by
  intro ds
  induction ds with
  | nil => exact fun sel cov => ⟨[], by simp [phase1]⟩
  | cons d ds ih =>
    intro sel cov
    by_cases h : topK ≤ sel.length
    · exact ⟨[], by simp [phase1, h]⟩
    · cases hmbd : mbd d with
      | nil =>
        obtain ⟨ext, hext⟩ := ih sel cov
        exact ⟨ext, by simp [phase1, h, hmbd, hext]⟩
      | cons m ms =>
        obtain ⟨ext, hext⟩ := ih (sel ++ [m]) (insertDoc cov d)
        exact ⟨m :: ext, by simp [phase1, h, hmbd, hext]⟩

theorem phase1_cov_mono (mbd : String → List Match) (topK : Nat) :
    ∀ (ds : List String) (sel : List Match) (cov : List String),
      ∀ x ∈ cov, x ∈ (phase1 mbd topK ds sel cov).2 := by
  intro ds
  induction ds with
  | nil => intro sel cov x hx; simpa [phase1] using hx
  | cons d ds ih =>
    intro sel cov x hx
    by_cases h : topK ≤ sel.length
    · simpa [phase1, h] using hx
    · cases hmbd : mbd d with
      | nil => simpa [phase1, h, hmbd] using ih sel cov x hx
      | cons m ms =>
        have : x ∈ insertDoc cov d := (insertDoc_mem cov d x).mpr (Or.inl hx)
        simpa [phase1, h, hmbd] using ih (sel ++ [m]) (insertDoc cov d) x this

theorem phase1_cov_sub (mbd : String → List Match) (topK : Nat) :
    ∀ (ds : List String) (sel : List Match) (cov : List String),
      ∀ x ∈ (phase1 mbd topK ds sel cov).2, x ∈ cov ∨ x ∈ ds := by
  intro ds
  induction ds with
  | nil => intro sel cov x hx; exact Or.inl (by simpa [phase1] using hx)
  | cons d ds ih =>
    intro sel cov x hx
    by_cases h : topK ≤ sel.length
    · exact Or.inl (by simpa [phase1, h] using hx)
    · cases hmbd : mbd d with
      | nil =>
        rcases ih sel cov x (by simpa [phase1, h, hmbd] using hx) with hc | hd
        · exact Or.inl hc
        · exact Or.inr (List.mem_cons_of_mem d hd)
      | cons m ms =>
        rcases ih (sel ++ [m]) (insertDoc cov d) x
            (by simpa [phase1, h, hmbd] using hx) with hc | hd
        · rcases (insertDoc_mem cov d x).mp hc with hc' | rfl
          · exact Or.inl hc'
          · exact Or.inr (List.mem_cons_self _ _)
        · exact Or.inr (List.mem_cons_of_mem d hd)

theorem phase1_cov_nodup (mbd : String → List Match) (topK : Nat) :
    ∀ (ds : List String) (sel : List Match) (cov : List String),
      cov.Nodup → (phase1 mbd topK ds sel cov).2.Nodup := by
  intro ds
  induction ds with
  | nil => intro sel cov h; simpa [phase1] using h
  | cons d ds ih =>
    intro sel cov h
    by_cases hk : topK ≤ sel.length
    · simpa [phase1, hk] using h
    · cases hmbd : mbd d with
      | nil => simpa [phase1, hk, hmbd] using ih sel cov h
      | cons m ms =>
        simpa [phase1, hk, hmbd] using
          ih (sel ++ [m]) (insertDoc cov d) (insertDoc_nodup cov d h)

theorem phase1_sel_docs (mbd : String → List Match) (topK : Nat)
    (hmbd : ∀ d, ∀ m ∈ mbd d, m.meta.document_id = d) :
    ∀ (ds : List String) (sel : List Match) (cov : List String),
      (∀ m ∈ sel, m.meta.document_id ∈ cov) →
      ∀ m ∈ (phase1 mbd topK ds sel cov).1,
        m.meta.document_id ∈ (phase1 mbd topK ds sel cov).2 := by
  intro ds
  induction ds with
  | nil => intro sel cov h m hm; simp only [phase1] at hm ⊢; exact h m hm
  | cons d ds ih =>
    intro sel cov h m hm
    by_cases hk : topK ≤ sel.length
    · simp only [phase1, if_pos hk] at hm ⊢; exact h m hm
    · cases hmbdd : mbd d with
      | nil =>
        simp only [phase1, if_neg hk, hmbdd] at hm ⊢
        exact ih sel cov h m hm
      | cons m0 ms =>
        simp only [phase1, if_neg hk, hmbdd] at hm ⊢
        refine ih (sel ++ [m0]) (insertDoc cov d) ?_ m hm
        intro m' hm'
        rcases List.mem_append.mp hm' with hsel | hone
        · exact (insertDoc_mem cov d _).mpr (Or.inl (h m' hsel))
        · have : m' = m0 := by simpa using hone
          subst this
          have : m'.meta.document_id = d := hmbd d m' (hmbdd ▸ List.mem_cons_self _ _)
          exact (insertDoc_mem cov d _).mpr (Or.inr this)

theorem phase1_cov_repr (mbd : String → List Match) (topK : Nat)
    (hmbd : ∀ d, ∀ m ∈ mbd d, m.meta.document_id = d) :
    ∀ (ds : List String) (sel : List Match) (cov : List String),
      (∀ x ∈ cov, ∃ m ∈ sel, m.meta.document_id = x) →
      ∀ x ∈ (phase1 mbd topK ds sel cov).2,
        ∃ m ∈ (phase1 mbd topK ds sel cov).1, m.meta.document_id = x := by
  intro ds
  induction ds with
  | nil => intro sel cov h x hx; simp only [phase1] at hx ⊢; exact h x hx
  | cons d ds ih =>
    intro sel cov h x hx
    by_cases hk : topK ≤ sel.length
    · simp only [phase1, if_pos hk] at hx ⊢; exact h x hx
    · cases hmbdd : mbd d with
      | nil =>
        simp only [phase1, if_neg hk, hmbdd] at hx ⊢
        exact ih sel cov h x hx
      | cons m0 ms =>
        simp only [phase1, if_neg hk, hmbdd] at hx ⊢
        refine ih (sel ++ [m0]) (insertDoc cov d) ?_ x hx
        intro x' hx'
        rcases (insertDoc_mem cov d _).mp hx' with hc | rfl
        · obtain ⟨m', hm', hid⟩ := h x' hc
          exact ⟨m', List.mem_append.mpr (Or.inl hm'), hid⟩
        · refine ⟨m0, List.mem_append.mpr (Or.inr (by simp)), ?_⟩
          exact hmbd x' m0 (hmbdd ▸ List.mem_cons_self _ _)

theorem phase1_nofull_covers (mbd : String → List Match) (topK : Nat) :
    ∀ (ds : List String) (sel : List Match) (cov : List String),
      (phase1 mbd topK ds sel cov).1.length < topK →
      ∀ d ∈ ds, mbd d ≠ [] → d ∈ (phase1 mbd topK ds sel cov).2 := by
  intro ds
  induction ds with
  | nil => intro sel cov _ d hd; exact absurd hd (List.not_mem_nil d)
  | cons d0 ds ih =>
    intro sel cov hlen d hd hne
    by_cases hk : topK ≤ sel.length
    · exfalso
      simp only [phase1, if_pos hk] at hlen
      omega
    · cases hmbdd : mbd d0 with
      | nil =>
        simp only [phase1, if_neg hk, hmbdd] at hlen ⊢
        rcases List.mem_cons.mp hd with rfl | hd'
        · exact absurd hmbdd hne
        · exact ih sel cov hlen d hd' hne
      | cons m0 ms =>
        simp only [phase1, if_neg hk, hmbdd] at hlen ⊢
        rcases List.mem_cons.mp hd with rfl | hd'
        · exact phase1_cov_mono mbd topK ds (sel ++ [m0]) (insertDoc cov d) d
            ((insertDoc_mem cov d d).mpr (Or.inr rfl))
        · exact ih (sel ++ [m0]) (insertDoc cov d0) hlen d hd' hne

theorem phase1_small_covers (mbd : String → List Match) (topK : Nat) :
    ∀ (ds : List String) (sel : List Match) (cov : List String),
      sel.length + ds.length ≤ topK →
      ∀ d ∈ ds, mbd d ≠ [] → d ∈ (phase1 mbd topK ds sel cov).2 := by
  intro ds
  induction ds with
  | nil => intro sel cov _ d hd; exact absurd hd (List.not_mem_nil d)
  | cons d0 ds ih =>
    intro sel cov hlen d hd hne
    have hk : ¬ topK ≤ sel.length := by
      simp only [List.length_cons] at hlen
      omega
    cases hmbdd : mbd d0 with
    | nil =>
      simp only [phase1, if_neg hk, hmbdd]
      rcases List.mem_cons.mp hd with rfl | hd'
      · exact absurd hmbdd hne
      · refine ih sel cov ?_ d hd' hne
        simp only [List.length_cons] at hlen
        omega
    | cons m0 ms =>
      simp only [phase1, if_neg hk, hmbdd]
      rcases List.mem_cons.mp hd with rfl | hd'
      · exact phase1_cov_mono mbd topK ds (sel ++ [m0]) (insertDoc cov d) d
          ((insertDoc_mem cov d d).mpr (Or.inr rfl))
      · refine ih (sel ++ [m0]) (insertDoc cov d0) ?_ d hd' hne
        simp only [List.length_append, List.length_cons, List.length_nil] at hlen ⊢
        omega

theorem phase2_noop (mbd : String → List Match) (topK : Nat) :
    ∀ (ds : List String) (sel : List Match) (cov : List String),
      (∀ d ∈ ds, mbd d ≠ [] → d ∈ cov) →
      phase2 mbd topK ds sel cov = (sel, cov) := by
  intro ds
  induction ds with
  | nil => intro sel cov _; simp [phase2]
  | cons d ds ih =>
    intro sel cov h
    by_cases hk : topK ≤ sel.length
    · simp [phase2, hk]
    · by_cases hdc : d ∈ cov
      · simp only [phase2, if_neg hk, if_pos hdc]
        exact ih sel cov fun d' hd' => h d' (List.mem_cons_of_mem d hd')
      · have hdn : mbd d = [] := by
          by_contra hne
          exact hdc (h d (List.mem_cons_self _ _) hne)
        simp only [phase2, if_neg hk, if_neg hdc, hdn]
        exact ih sel cov fun d' hd' => h d' (List.mem_cons_of_mem d hd')

theorem phase3_sel_prefix (topK : Nat) :
    ∀ (ms : List Match) (sel : List Match),
      ∃ ext, phase3 topK ms sel = sel ++ ext ∧ ∀ m ∈ ext, m ∈ ms := by
  intro ms
  induction ms with
  | nil =>
    intro sel
    exact ⟨[], by simp [phase3], by simp⟩
  | cons m ms ih =>
    intro sel
    by_cases hk : topK ≤ sel.length
    · exact ⟨[], by simp [phase3, hk], by simp⟩
    · by_cases hm : m ∈ sel
      · obtain ⟨ext, hext, hsub⟩ := ih sel
        exact ⟨ext, by simp [phase3, hk, hm, hext],
          fun x hx => List.mem_cons_of_mem m (hsub x hx)⟩
      · obtain ⟨ext, hext, hsub⟩ := ih (sel ++ [m])
        refine ⟨m :: ext, by simp [phase3, hk, hm, hext], ?_⟩
        intro x hx
        rcases List.mem_cons.mp hx with rfl | hx'
        · exact List.mem_cons_self _ _
        · exact List.mem_cons_of_mem m (hsub x hx')

/-- Phase 2 of the selection never fires: the composed selection equals the
variant with the Phase 2 loop removed. -/
theorem retrieveSelect_eq_noPhase2 (documentIds : List String) (topK : Nat)
    (pool : List Match) :
    retrieveSelect documentIds topK pool = retrieveSelectNoPhase2 documentIds topK pool := by
  unfold retrieveSelect retrieveSelectNoPhase2
  by_cases h :
      (phase1 (matchesByDoc pool) topK documentIds [] []).1.length < topK
  · have hnoop :
        phase2 (matchesByDoc pool) topK documentIds
          (phase1 (matchesByDoc pool) topK documentIds [] []).1
          (phase1 (matchesByDoc pool) topK documentIds [] []).2 =
          ((phase1 (matchesByDoc pool) topK documentIds [] []).1,
           (phase1 (matchesByDoc pool) topK documentIds [] []).2) :=
      phase2_noop (matchesByDoc pool) topK documentIds _ _
        (phase1_nofull_covers (matchesByDoc pool) topK documentIds [] [] h)
    simp only [if_pos h, hnoop]
  · simp only [if_neg h]

theorem batchList_flatten (texts : List String) : (batchList texts).flatten = texts := by
  induction texts using batchList.induct with
  | case1 => simp [batchList]
  | case2 x xs ih =>
    rw [batchList, List.flatten_cons, ih, List.take_append_drop]

theorem batchList_bounds (texts : List String) :
    ∀ b ∈ batchList texts, b.length ≤ 50 ∧ b ≠ [] := by
  induction texts using batchList.induct with
  | case1 => simp [batchList]
  | case2 x xs ih =>
    intro b hb
    rw [batchList] at hb
    rcases List.mem_cons.mp hb with rfl | hb'
    · refine ⟨List.length_take_le 50 (x :: xs), ?_⟩
      intro hnil
      have : ((x :: xs).take 50).length = 0 := by rw [hnil]; rfl
      simp [List.length_take] at this
    · exact ih b hb'

theorem foldl_append_flatten (f : List String → List (List ℚ)) :
    ∀ (bs : List (List String)) (acc : List (List ℚ)),
      bs.foldl (fun a b => a ++ f b) acc = acc ++ (bs.map f).flatten := by
  intro bs
  induction bs with
  | nil => intro acc; simp
  | cons b bs ih => intro acc; simp [ih]

/-- C6: `generate_embeddings` calls the provider once per consecutive batch of
at most 50 texts, in order, and concatenates the results; when the provider
embeds each text of a batch individually (`fun b => b.map g`), the output is
the embedding of each input text in the original global order (in particular
the output has the same length as the input). -/
theorem generate_embeddings_batches_in_order (g : String → List ℚ)
    (modelInitialized : Bool) (texts : List String) :
    (generate_embeddings (fun b => b.map g) modelInitialized texts).1 = texts.map g
    ∧ (batchList texts).flatten = texts
    ∧ (∀ b ∈ batchList texts, b.length ≤ 50 ∧ b ≠ []) := by
  refine ⟨?_, batchList_flatten texts, batchList_bounds texts⟩
  by_cases h : texts = []
  · subst h; simp [generate_embeddings]
  · simp only [generate_embeddings, if_neg h]
    rw [foldl_append_flatten, List.nil_append, ← List.map_flatten, batchList_flatten]

/-- C10: `generate_embeddings` on the empty list returns the empty list for
every provider (so the provider is never called) and leaves the
client-initialisation state untouched (so the embeddings client is not
initialised). -/
theorem generate_embeddings_empty_input
    (embedDocuments : List String → List (List ℚ)) (modelInitialized : Bool) :
    generate_embeddings embedDocuments modelInitialized [] = ([], modelInitialized) := by
  simp [generate_embeddings]

/-- C7: every chunk produced by `chunk_text_with_metadata` carries
`chunk_total` equal to the number of chunks produced, and the `chunk_index`
values across the output are exactly `0..N-1` in order — for every splitter
behaviour, input text, document id and document name. -/
theorem chunk_metadata_index_total_invariant (splitText : String → List String)
    (text documentId documentName : String) :
    ((chunk_text_with_metadata splitText text documentId documentName).map
        fun c => c.metadata.chunk_index)
      = List.range (chunk_text_with_metadata splitText text documentId documentName).length
    ∧ ∀ c ∈ chunk_text_with_metadata splitText text documentId documentName,
        c.metadata.chunk_total
          = (chunk_text_with_metadata splitText text documentId documentName).length := by
  unfold chunk_text_with_metadata
  constructor
  · rw [List.map_map, List.length_map, List.enum_length]
    exact List.enum_map_fst _
  · intro c hc
    rw [List.length_map, List.enum_length]
    obtain ⟨p, _, rfl⟩ := List.mem_map.mp hc
    rfl

/-- C8: `retrieve_context` with an empty `document_ids` list returns the empty
context for every embedding-provider outcome and store state — in particular
it neither consults the provider result nor queries the store. -/
theorem retrieve_context_empty_document_ids (embedResult : Except String (List ℚ))
    (storeFails : Bool) (store : List Match) (topK : Nat) :
    retrieve_context embedResult storeFails store [] topK = Except.ok "" := by
  simp [retrieve_context]

theorem snd_mem_of_mem_enum {α : Type} {p : Nat × α} {l : List α}
    (h : p ∈ l.enum) : p.2 ∈ l := by
  have h2 : p.2 ∈ l.enum.map Prod.snd := List.mem_map_of_mem Prod.snd h
  rwa [List.enum_map_snd] at h2

/-- C2: in an exception-free run, `verify_vectors_persisted` returns true
exactly when the number of records stored under `document_id` equals the
expected count; and whenever the stored count after `add` differs from the
number of uploaded records — for any `add` behaviour, including one that
drops the write — `upload_to_chroma` returns `False`. -/
theorem verify_persisted_iff_count (store : List StoredRec) (documentId : String)
    (expected : Nat) :
    (verify_vectors_persisted false store documentId expected = true
       ↔ countDoc store documentId = expected)
    ∧ ∀ (addFn : List StoredRec → List StoredRec → List StoredRec)
        (chunks : List ChunkData) (embeddings : List (List ℚ))
        (store0 : List StoredRec),
        countDoc (addFn store0 (uploadRecords chunks embeddings documentId)) documentId
            ≠ (uploadRecords chunks embeddings documentId).length →
        upload_to_chroma addFn false store0 chunks embeddings documentId = false := by
  constructor
  · simp [verify_vectors_persisted]
  · intro addFn chunks embeddings store0 hne
    simp [upload_to_chroma, verify_vectors_persisted, hne]

/-- A one-chunk upload used as concrete input in witnesses. -/
def sampleChunk (i total : Nat) : ChunkData :=
  { text := "t",
    metadata := { document_id := "doc", document_name := "n",
                  chunk_index := i, chunk_total := total } }

/-- Witness for C2: with an `add` that drops the write, the stored count 0
differs from the 1 uploaded record and `upload_to_chroma` reports failure. -/
theorem verify_persisted_iff_count_witness :
    upload_to_chroma (fun s _ => s) false [] [sampleChunk 0 1] [[(1 : ℚ)]] "doc" = false :=
  (verify_persisted_iff_count [] "doc" 0).2 (fun s _ => s)
    [sampleChunk 0 1] [[(1 : ℚ)]] [] (by decide)

/-- Counterexample for C5: with two chunks and one embedding (unequal
lengths), `upload_to_chroma` silently truncates via `zip` — it stores one
record and reports success, rather than reporting an error and storing
nothing. -/
theorem upload_unequal_lengths_counterexample :
    ([sampleChunk 0 2, sampleChunk 1 2] : List ChunkData).length
        ≠ ([[(1 : ℚ)]] : List (List ℚ)).length
    ∧ upload_to_chroma (fun s rs => s ++ rs) false []
        [sampleChunk 0 2, sampleChunk 1 2] [[(1 : ℚ)]] "doc" = true
    ∧ (uploadRecords [sampleChunk 0 2, sampleChunk 1 2] [[(1 : ℚ)]] "doc").length = 1 := by
  decide

/-- C5 amended: on unequal input lengths `upload_to_chroma` does not error;
it truncates to the shorter length via `zip`, so the four arrays handed to
the store all have length `min |chunks| |embeddings|` (the store's
equal-length precondition is always met), and with a store that persists the
records the upload reports success. -/
theorem upload_truncates_to_min_amended (chunks : List ChunkData)
    (embeddings : List (List ℚ)) (documentId : String) (store : List StoredRec)
    (hall : ∀ c ∈ chunks, c.metadata.document_id = documentId)
    (hzero : countDoc store documentId = 0) :
    (uploadArrays chunks embeddings documentId).1.length
        = min chunks.length embeddings.length
    ∧ (uploadArrays chunks embeddings documentId).2.1.length
        = min chunks.length embeddings.length
    ∧ (uploadArrays chunks embeddings documentId).2.2.1.length
        = min chunks.length embeddings.length
    ∧ (uploadArrays chunks embeddings documentId).2.2.2.length
        = min chunks.length embeddings.length
    ∧ (uploadRecords chunks embeddings documentId).length
        = min chunks.length embeddings.length
    ∧ upload_to_chroma (fun s rs => s ++ rs) false store chunks embeddings
        documentId = true := by
  refine ⟨?_, ?_, ?_, ?_, ?_, ?_⟩
  · simp [uploadArrays]
  · simp [uploadArrays]
  · simp [uploadArrays]
  · simp [uploadArrays]
  · simp [uploadRecords]
  · have hrec : ∀ r ∈ uploadRecords chunks embeddings documentId,
        r.meta.document_id = documentId := by
      intro r hr
      unfold uploadRecords at hr
      obtain ⟨p, hp, rfl⟩ := List.mem_map.mp hr
      have hmem : p.2 ∈ chunks.zip embeddings := snd_mem_of_mem_enum hp
      exact hall p.2.1 (List.of_mem_zip hmem).1
    have hcnt : countDoc (store ++ uploadRecords chunks embeddings documentId)
        documentId = (uploadRecords chunks embeddings documentId).length := by
      unfold countDoc at hzero ⊢
      rw [List.filter_append, List.length_append, hzero, List.filter_eq_self.mpr
        (fun r hr => decide_eq_true (hrec r hr)), Nat.zero_add]
    simp [upload_to_chroma, verify_vectors_persisted, hcnt]

/-- Witness for C5 amended: one chunk, one embedding, an initially empty
store; all array lengths are 1 and the upload succeeds. -/
theorem upload_truncates_to_min_amended_witness :
    upload_to_chroma (fun s rs => s ++ rs) false [] [sampleChunk 0 1]
      [[(1 : ℚ)]] "doc" = true :=
  (upload_truncates_to_min_amended [sampleChunk 0 1] [[(1 : ℚ)]] "doc" []
    (by decide) (by decide)).2.2.2.2.2

/-- Counterexample for C4: when the embedding provider raises, the exception
propagates out of `retrieve_context` — there is no `try/except` around
`generate_single_embedding` — so the caller does not receive an empty
context. -/
theorem retrieve_provider_error_counterexample :
    retrieve_context (Except.error "provider failure") false [] ["docA"] 5
        = Except.error "provider failure"
    ∧ retrieve_context (Except.error "provider failure") false [] ["docA"] 5
        ≠ Except.ok "" := by
  constructor
  · rfl
  · intro h
    simp [retrieve_context] at h

/-- C4 amended: only vector-store errors are caught (inside
`query_with_filter`, degrading to the empty match list so the caller receives
an empty context); an embedding-provider error propagates out of
`retrieve_context` unchanged. -/
theorem retrieve_error_handling_amended (store : List Match)
    (documentIds : List String) (topK : Nat) (emb : List ℚ) (e : String)
    (storeFails : Bool) (h : documentIds ≠ []) :
    retrieve_context (Except.ok emb) true store documentIds topK = Except.ok ""
    ∧ retrieve_context (Except.error e) storeFails store documentIds topK
        = Except.error e := by
  constructor
  · simp [retrieve_context, query_with_filter, h]
  · simp [retrieve_context, h]

/-- Witness for C4 amended at a concrete non-empty `document_ids`. -/
theorem retrieve_error_handling_amended_witness :
    retrieve_context (Except.ok []) true [] ["docA"] 5 = Except.ok ""
    ∧ retrieve_context (Except.error "boom") false [] ["docA"] 5
        = Except.error "boom" :=
  retrieve_error_handling_amended [] ["docA"] 5 [] "boom" false (by decide)

/-- C9: Phase 2 never appends a match — after Phase 1 either the selection
already holds `top_k` elements, or every iterated document id with a
non-empty match group is already covered — hence both the selection and the
full `retrieve_context` are extensionally equal to the variants with the
Phase 2 loop removed. -/
theorem phase2_is_dead_code (documentIds : List String) (topK : Nat)
    (pool : List Match) :
    (topK ≤ (phase1 (matchesByDoc pool) topK documentIds [] []).1.length
      ∨ ∀ d ∈ documentIds, matchesByDoc pool d ≠ [] →
          d ∈ (phase1 (matchesByDoc pool) topK documentIds [] []).2)
    ∧ retrieveSelect documentIds topK pool
        = retrieveSelectNoPhase2 documentIds topK pool
    ∧ ∀ (embedResult : Except String (List ℚ)) (storeFails : Bool)
        (store : List Match),
        retrieve_context embedResult storeFails store documentIds topK
          = retrieve_context_noPhase2 embedResult storeFails store documentIds topK := by
  refine ⟨?_, retrieveSelect_eq_noPhase2 documentIds topK pool, ?_⟩
  · by_cases h : topK ≤ (phase1 (matchesByDoc pool) topK documentIds [] []).1.length
    · exact Or.inl h
    · exact Or.inr (phase1_nofull_covers (matchesByDoc pool) topK documentIds [] []
        (Nat.lt_of_not_le h))
  · intro embedResult storeFails store
    unfold retrieve_context retrieve_context_noPhase2
    by_cases hids : documentIds = []
    · simp [hids]
    · simp only [if_neg hids]
      cases embedResult with
      | error e => rfl
      | ok emb =>
        simp only [retrieveSelect_eq_noPhase2]

theorem retrieveSelect_parts (documentIds : List String) (topK : Nat)
    (pool : List Match) :
    (retrieveSelect documentIds topK pool).2
        = (phase1 (matchesByDoc pool) topK documentIds [] []).2
    ∧ ∃ ext,
        (retrieveSelect documentIds topK pool).1
          = (phase1 (matchesByDoc pool) topK documentIds [] []).1 ++ ext
        ∧ (∀ m ∈ ext, m ∈ pool)
        ∧ ((phase1 (matchesByDoc pool) topK documentIds [] []).1.length < topK
            ∨ ext = []) := by
  rw [retrieveSelect_eq_noPhase2]
  unfold retrieveSelectNoPhase2
  by_cases h : (phase1 (matchesByDoc pool) topK documentIds [] []).1.length < topK
  · obtain ⟨ext, hext, hsub⟩ :=
      phase3_sel_prefix topK pool (phase1 (matchesByDoc pool) topK documentIds [] []).1
    exact ⟨by simp, ext, by simp only [if_pos h]; exact hext, hsub, Or.inl h⟩
  · exact ⟨by simp, [], by simp [if_neg h], by simp, Or.inr rfl⟩

/-- Every document id in the covered set is represented in the selection and
conversely: the distinct document ids of the selection are a permutation of
`docs_covered`, provided every pool match belongs to a candidate document. -/
theorem selection_covered_perm (documentIds : List String) (topK : Nat)
    (pool : List Match)
    (hsub : ∀ m ∈ pool, m.meta.document_id ∈ documentIds) :
    List.Perm
      ((retrieveSelect documentIds topK pool).1.map fun m => m.meta.document_id).dedup
      (retrieveSelect documentIds topK pool).2 := by
  obtain ⟨hcoveq, ext, hexteq, hextsub, hextor⟩ := retrieveSelect_parts documentIds topK pool
  have hmemsel : ∀ m ∈ (retrieveSelect documentIds topK pool).1,
      m.meta.document_id ∈ (phase1 (matchesByDoc pool) topK documentIds [] []).2 := by
    intro m hm
    rw [hexteq] at hm
    rcases List.mem_append.mp hm with h1 | h2
    · exact phase1_sel_docs (matchesByDoc pool) topK
        (fun d => matchesByDoc_docId pool d) documentIds [] [] (by simp) m h1
    · have hmp : m ∈ pool := hextsub m h2
      have hfull : (phase1 (matchesByDoc pool) topK documentIds [] []).1.length < topK := by
        rcases hextor with hlt | hnil
        · exact hlt
        · rw [hnil] at h2; exact absurd h2 (List.not_mem_nil m)
      exact phase1_nofull_covers (matchesByDoc pool) topK documentIds [] [] hfull
        m.meta.document_id (hsub m hmp)
        (List.ne_nil_of_mem (mem_matchesByDoc_self pool m hmp))
  have hcovsel : ∀ x ∈ (phase1 (matchesByDoc pool) topK documentIds [] []).2,
      ∃ m ∈ (retrieveSelect documentIds topK pool).1, m.meta.document_id = x := by
    intro x hx
    obtain ⟨m, hm, hmid⟩ := phase1_cov_repr (matchesByDoc pool) topK
      (fun d => matchesByDoc_docId pool d) documentIds [] [] (by simp) x hx
    exact ⟨m, by rw [hexteq]; exact List.mem_append.mpr (Or.inl hm), hmid⟩
  rw [hcoveq]
  refine (List.perm_ext_iff_of_nodup (List.nodup_dedup _)
    (phase1_cov_nodup _ topK documentIds [] [] List.nodup_nil)).mpr ?_
  intro a
  rw [List.mem_dedup, List.mem_map]
  constructor
  · rintro ⟨m, hm, rfl⟩
    exact hmemsel m hm
  · intro ha
    obtain ⟨m, hm, hmid⟩ := hcovsel a ha
    exact ⟨m, hm, hmid⟩

/-- C1 amended: the diversity invariant holds with "at least one chunk in the
store" strengthened to "at least one match in the extended-pool query
results": if the candidate ids are distinct, `D ≤ top_k`, and every candidate
document has a match among the pool returned by `query_with_filter`, then
every candidate document is represented in the selection and the logged
coverage is 100%. -/
theorem diversity_coverage_amended (store : List Match)
    (documentIds : List String) (topK : Nat) (d : String)
    (hnd : documentIds.Nodup) (hlen : documentIds.length ≤ topK)
    (hpool : ∀ d' ∈ documentIds,
      ∃ m ∈ query_with_filter false store documentIds
          (extendedTopK documentIds.length topK), m.meta.document_id = d')
    (hd : d ∈ documentIds) :
    (∃ m ∈ (retrieveOutcomeFromStore store documentIds topK).selected,
        m.meta.document_id = d)
    ∧ (retrieveOutcomeFromStore store documentIds topK).coveragePct = 100 := by
  have hne : ∀ d' ∈ documentIds,
      matchesByDoc (query_with_filter false store documentIds
        (extendedTopK documentIds.length topK)) d' ≠ [] := by
    intro d' hd'
    obtain ⟨m, hmpool, hmid⟩ := hpool d' hd'
    have hm := mem_matchesByDoc_self
      (query_with_filter false store documentIds
        (extendedTopK documentIds.length topK)) m hmpool
    rw [hmid] at hm
    exact List.ne_nil_of_mem hm
  have hcov : ∀ d' ∈ documentIds,
      d' ∈ (phase1 (matchesByDoc (query_with_filter false store documentIds
          (extendedTopK documentIds.length topK))) topK documentIds [] []).2 := by
    intro d' hd'
    exact phase1_small_covers _ topK documentIds [] [] (by simpa using hlen)
      d' hd' (hne d' hd')
  obtain ⟨hcoveq, ext, hexteq, hextsub, hextor⟩ :=
    retrieveSelect_parts documentIds topK
      (query_with_filter false store documentIds (extendedTopK documentIds.length topK))
  constructor
  · obtain ⟨m, hm, hmid⟩ := phase1_cov_repr _ topK
      (fun x => matchesByDoc_docId _ x) documentIds [] [] (by simp) d (hcov d hd)
    refine ⟨m, ?_, hmid⟩
    show m ∈ (retrieveSelect documentIds topK _).1
    rw [hexteq]
    exact List.mem_append.mpr (Or.inl hm)
  · have hnodup2 : (phase1 (matchesByDoc (query_with_filter false store documentIds
        (extendedTopK documentIds.length topK))) topK documentIds [] []).2.Nodup :=
      phase1_cov_nodup _ topK documentIds [] [] List.nodup_nil
    have hsub2 : ∀ x ∈ (phase1 (matchesByDoc (query_with_filter false store documentIds
        (extendedTopK documentIds.length topK))) topK documentIds [] []).2,
        x ∈ documentIds := by
      intro x hx
      rcases phase1_cov_sub _ topK documentIds [] [] x hx with h0 | h1
      · exact absurd h0 (List.not_mem_nil x)
      · exact h1
    have hperm : List.Perm (phase1 (matchesByDoc (query_with_filter false store documentIds
        (extendedTopK documentIds.length topK))) topK documentIds [] []).2
          documentIds :=
      (List.perm_ext_iff_of_nodup hnodup2 hnd).mpr
        fun a => ⟨fun ha => hsub2 a ha, fun ha => hcov a ha⟩
    show coveragePercentage documentIds.length (retrieveSelect documentIds topK _).2 = 100
    rw [hcoveq]
    unfold coveragePercentage
    have hpos : 0 < documentIds.length := List.length_pos.mpr (List.ne_nil_of_mem hd)
    rw [if_pos hpos, hperm.length_eq, div_self, one_mul]
    exact Nat.cast_ne_zero.mpr (Nat.pos_iff_ne_zero.mp hpos)

/-- A best-ranked chunk of document `"A"`, used in concrete scenarios. -/
def mA : Match :=
  { id := "a", score := 1,
    meta := { document_id := "A", document_name := "docA",
              chunk_index := 0, chunk_total := 1 },
    text := "alpha" }

/-- A chunk of document `"B"`, ranked below every chunk of `"A"`. -/
def mB : Match :=
  { id := "b", score := 0,
    meta := { document_id := "B", document_name := "docB",
              chunk_index := 0, chunk_total := 1 },
    text := "beta" }

/-- A store in which document `"A"` has 26 chunks all ranked above the single
chunk of document `"B"`. -/
def skewedStore : List Match := List.replicate 26 mA ++ [mB]

/-- Counterexample for C1: with candidates `["A", "B"]` (distinct, `D = 2 ≤
top_k = 5`) and a store where both documents have a matching chunk but `"B"`'s
only chunk ranks below the 25-element extended pool cutoff, the selection
contains no match from `"B"` and coverage is 50%, not 100%. -/
theorem diversity_coverage_counterexample :
    (["A", "B"] : List String).Nodup
    ∧ (["A", "B"] : List String).length ≤ 5
    ∧ (∀ d ∈ (["A", "B"] : List String), ∃ r ∈ skewedStore, r.meta.document_id = d)
    ∧ (¬ ∃ m ∈ (retrieveOutcomeFromStore skewedStore ["A", "B"] 5).selected,
          m.meta.document_id = "B")
    ∧ (retrieveOutcomeFromStore skewedStore ["A", "B"] 5).coveragePct = 50 := by
  refine ⟨by decide, by decide, by decide, by decide, ?_⟩
  have hcov : (retrieveSelect ["A", "B"] 5 (query_with_filter false skewedStore
      ["A", "B"] (extendedTopK (["A", "B"] : List String).length 5))).2 = ["A"] := by
    decide
  show coveragePercentage (["A", "B"] : List String).length
      (retrieveSelect ["A", "B"] 5 (query_with_filter false skewedStore ["A", "B"]
        (extendedTopK (["A", "B"] : List String).length 5))).2 = 50
  rw [hcov]
  norm_num [coveragePercentage]

/-- Witness for C1 amended: with a two-record store both documents appear in
the pool, document `"B"` is represented and coverage is 100%. -/
theorem diversity_coverage_amended_witness :
    (∃ m ∈ (retrieveOutcomeFromStore [mA, mB] ["A", "B"] 5).selected,
        m.meta.document_id = "B")
    ∧ (retrieveOutcomeFromStore [mA, mB] ["A", "B"] 5).coveragePct = 100 :=
  diversity_coverage_amended [mA, mB] ["A", "B"] 5 "B" (by decide) (by decide)
    (by decide) (by decide)

/-- Counterexample for C3: with candidates `["A", "B"]` where only `"A"` has
matches, the code's logged coverage divides by the number of *candidate*
documents (50%), not by the number of candidates with at least one match,
which would give the spec's value 100%. -/
theorem coverage_metric_counterexample :
    query_with_filter false [mA] ["A", "B"]
        (extendedTopK (["A", "B"] : List String).length 5) ≠ []
    ∧ (retrieveOutcomeFromStore [mA] ["A", "B"] 5).coveragePct = 50
    ∧ coverageSpec ["A", "B"]
        (query_with_filter false [mA] ["A", "B"]
          (extendedTopK (["A", "B"] : List String).length 5))
        (retrieveOutcomeFromStore [mA] ["A", "B"] 5).selected = 100
    ∧ (retrieveOutcomeFromStore [mA] ["A", "B"] 5).coveragePct
        ≠ coverageSpec ["A", "B"]
            (query_with_filter false [mA] ["A", "B"]
              (extendedTopK (["A", "B"] : List String).length 5))
            (retrieveOutcomeFromStore [mA] ["A", "B"] 5).selected := by
  have hcov : (retrieveSelect ["A", "B"] 5 (query_with_filter false [mA]
      ["A", "B"] (extendedTopK (["A", "B"] : List String).length 5))).2 = ["A"] := by
    decide
  have hsel : ((retrieveOutcomeFromStore [mA] ["A", "B"] 5).selected.map
      fun m => m.meta.document_id).dedup = ["A"] := by decide
  have hfil : ((["A", "B"] : List String).filter fun d =>
      ¬ matchesByDoc (query_with_filter false [mA] ["A", "B"]
        (extendedTopK (["A", "B"] : List String).length 5)) d = []) = ["A"] := by
    decide
  have hpct : (retrieveOutcomeFromStore [mA] ["A", "B"] 5).coveragePct = 50 := by
    show coveragePercentage (["A", "B"] : List String).length
        (retrieveSelect ["A", "B"] 5 (query_with_filter false [mA] ["A", "B"]
          (extendedTopK (["A", "B"] : List String).length 5))).2 = 50
    rw [hcov]
    norm_num [coveragePercentage]
  have hspec : coverageSpec ["A", "B"]
      (query_with_filter false [mA] ["A", "B"]
        (extendedTopK (["A", "B"] : List String).length 5))
      (retrieveOutcomeFromStore [mA] ["A", "B"] 5).selected = 100 := by
    unfold coverageSpec
    rw [hsel, hfil]
    norm_num
  refine ⟨by decide, hpct, hspec, ?_⟩
  rw [hpct, hspec]
  norm_num

/-- C3 amended: for every retrieval whose pool is non-empty and drawn from
the candidate documents, the logged coverage equals (number of distinct
documents represented in the output) divided by (number of candidate
document ids supplied), as a percentage — the denominator is all candidates,
not only those with a match. -/
theorem coverage_metric_amended (documentIds : List String) (topK : Nat)
    (pool : List Match) (hnonempty : pool ≠ [])
    (hsub : ∀ m ∈ pool, m.meta.document_id ∈ documentIds) :
    (retrieveOutcome documentIds topK pool).coveragePct
      = (((retrieveOutcome documentIds topK pool).selected.map
            fun m => m.meta.document_id).dedup.length : ℚ)
          / (documentIds.length : ℚ) * 100 := by
  have hperm := selection_covered_perm documentIds topK pool hsub
  have hpos : 0 < documentIds.length := by
    obtain ⟨m, hm⟩ := List.exists_mem_of_ne_nil pool hnonempty
    exact List.length_pos.mpr (List.ne_nil_of_mem (hsub m hm))
  show coveragePercentage documentIds.length (retrieveSelect documentIds topK pool).2
      = (((retrieveSelect documentIds topK pool).1.map
            fun m => m.meta.document_id).dedup.length : ℚ)
          / (documentIds.length : ℚ) * 100
  unfold coveragePercentage
  rw [if_pos hpos, hperm.length_eq]

/-- Witness for C3 amended at a concrete one-document retrieval. -/
theorem coverage_metric_amended_witness :
    (retrieveOutcome ["A"] 5 [mA]).coveragePct
      = (((retrieveOutcome ["A"] 5 [mA]).selected.map
            fun m => m.meta.document_id).dedup.length : ℚ)
          / ((["A"] : List String).length : ℚ) * 100 :=
  coverage_metric_amended ["A"] 5 [mA] (by decide) (by decide)

end RagCore
